import Mathlib

/-!
Verification development for the CHILD erosion engine
(src/Child/Code/Erosion/erosion.cpp, revision 1.88).

The file shallowly embeds the pieces of erosion.cpp that the checked
properties talk about:

ASSUMPTION CONVENTIONS, applied uniformly.
Floating point doubles are modelled as real numbers; pow with a real
exponent is Real.rpow.  Quantities whose claims only need field
arithmetic (the sub-step time loops, the equilibrium tracker, hillslope
diffusion bookkeeping) are modelled over the rationals so they evaluate.
A call to ReportFatalError is modelled as the Option value none (a fatal
abort); a C assert is a debug-only check compiled out under NDEBUG and is
modelled as a no-op.  tLNode accessors and mutators are modelled as
fields of a record: a setter is a record update.  The node operation
EroDep, the mesh, the iterators and the stream-net services live outside
this file of the repository; integrator loops therefore take the per
sub-step node data they would derive from the mesh (the per-node
candidate time-step values, the per-edge geometry) as explicit inputs,
and thread the externally mutated state through an abstract substep
argument.
-/

/-- Water density, from the RHO macro of the erosion header (the header is
not under src; value as used for rho in the in-src multi-fraction
constructor, erosion.cpp line 599). -/
noncomputable def RHO : ℝ := 1000

/-- Sediment density, from the RHOSED macro of the erosion header (value as
used for sig in the in-src multi-fraction constructor, line 598). -/
noncomputable def RHOSED : ℝ := 2650

/-- Gravitational acceleration, from the GRAV macro of the erosion header
(value as used for g in the in-src multi-fraction constructor, line 600). -/
noncomputable def GRAV : ℝ := 981 / 100

/-- Seconds per year, from the SECPERYEAR macro of the erosion header
(365 days times 86400 seconds). -/
noncomputable def SECPERYEAR : ℝ := 31536000

/-- Years per second, the YEARPERSEC macro defined in erosion.cpp line 746. -/
noncomputable def YEARPERSEC : ℝ := 3171 / 100000000000

/-- Model of the tLNode accessors used by erosion.cpp.  Each getter of the
node class becomes a field; a setter becomes a record update.  Per-size
sediment flux arrays are modelled for the two sizes the two-fraction laws
use (qs0, qs1); layer accessors are functions of the layer index. -/
structure tLNode where
  floodStatus : Bool := false
  slope : ℝ := 0
  q : ℝ := 0
  drArea : ℝ := 0
  hydrWidth : ℝ := 0
  hydrRough : ℝ := 0
  chanDepth : ℝ := 0
  tauCrit : ℝ := 0
  tau : ℝ := 0
  drdt : ℝ := 0
  dzdt : ℝ := 0
  qs : ℝ := 0
  qs0 : ℝ := 0
  qs1 : ℝ := 0
  qsin : ℝ := 0
  varea : ℝ := 0
  maxregdep : ℝ := 0
  numg : ℕ := 2
  layerErody : ℕ → ℝ := fun _ => 0
  layerDepth : ℕ → ℝ := fun _ => 0
  layerDgrade : ℕ → ℕ → ℝ := fun _ _ => 0

/-- Parameters of tBedErodePwrLaw (erosion.cpp lines 248-266); kt is the
already unit-converted shear coefficient stored by the constructor. -/
structure tBedErodePwrLaw where
  kb : ℝ
  kt : ℝ
  mb : ℝ
  nb : ℝ
  pb : ℝ
  taucd : ℝ

/-- tBedErodePwrLaw::DetachCapacity(tLNode, double), erosion.cpp lines
294-309: depth of erosion over dt.  Returns none on the fatal
negative-slope abort; otherwise the returned pair is (return value,
node after the setTau side effect). -/
noncomputable def DetachCapacityDt (law : tBedErodePwrLaw) (n : tLNode) (dt : ℝ) :
    Option (ℝ × tLNode) :=
  if n.floodStatus then some (0, n)
  else if n.slope < 0 then none
  else
    let tau := law.kt * (n.q / n.hydrWidth) ^ law.mb * n.slope ^ law.nb
    let tauex := tau - n.tauCrit
    let tauex2 := if tauex > 0 then tauex else 0
    some (n.layerErody 0 * tauex2 ^ law.pb * dt, { n with tau := tau })

/-- tBedErodePwrLaw::DetachCapacity(tLNode), erosion.cpp lines 336-362:
instantaneous rate form; also stores the negated rate through setDrDt. -/
noncomputable def DetachCapacityRate (law : tBedErodePwrLaw) (n : tLNode) :
    Option (ℝ × tLNode) :=
  if n.floodStatus then some (0, n)
  else if n.slope < 0 then none
  else
    let tau := law.kt * (n.q / n.hydrWidth) ^ law.mb * n.slope ^ law.nb
    let erorate := tau - n.tauCrit
    let erorate2 := if erorate > 0 then erorate else 0
    let erorate3 := n.layerErody 0 * erorate2 ^ law.pb
    some (erorate3, { n with tau := tau, drdt := -erorate3 })

/-- tBedErodePwrLaw::DetachCapacity(tLNode, int), erosion.cpp lines
391-413: rate form using the erodibility of layer i. -/
noncomputable def DetachCapacityLayer (law : tBedErodePwrLaw) (n : tLNode) (i : ℕ) :
    Option (ℝ × tLNode) :=
  if n.floodStatus then some (0, n)
  else if n.slope < 0 then none
  else
    let tau := law.kt * (n.q / n.hydrWidth) ^ law.mb * n.slope ^ law.nb
    let erorate := tau - n.tauCrit
    let erorate2 := if erorate > 0 then erorate else 0
    let erorate3 := n.layerErody i * erorate2 ^ law.pb
    some (erorate3, { n with tau := tau, drdt := -erorate3 })

/-- Parameters shared by tSedTransWilcock and tSedTransMineTailings; the
two classes declare the identical parameter set and their constructors
compute the identical derived constants. -/
structure WilcockParams where
  grade0 : ℝ
  grade1 : ℝ
  taudim : ℝ
  refs : ℝ
  refg : ℝ
  lowtaucs : ℝ
  lowtaucg : ℝ
  hightaucs : ℝ
  hightaucg : ℝ
  sands : ℝ
  sandb : ℝ
  gravs : ℝ
  gravb : ℝ

/-- Constructor tSedTransWilcock::tSedTransWilcock, erosion.cpp lines
694-727 (the derived-constant block, lines 714-726); grade0 and grade1
are the two grain diameters read from the input file. -/
noncomputable def mkWilcock (grade0 grade1 : ℝ) : WilcockParams :=
  let taudim := RHO * GRAV
  let refs := (RHOSED - RHO) * (981 / 100) * grade0
  let refg := (RHOSED - RHO) * (981 / 100) * grade1
  let lowtaucs := (8 / 10) * (grade1 / grade0) * (40 / 1000) * refs * (8531 / 10000)
  let lowtaucg := (4 / 100) * refg * (8531 / 10000)
  let hightaucs := (4 / 100) * refs * (8531 / 10000)
  let hightaucg := (1 / 100) * refg * (8531 / 10000)
  let sands := (lowtaucs - hightaucs) / (-(3 / 10))
  let sandb := lowtaucs - sands * (1 / 10)
  let gravs := (lowtaucg - hightaucg) / (-(3 / 10))
  let gravb := lowtaucg - gravs * (1 / 10)
  { grade0 := grade0, grade1 := grade1, taudim := taudim, refs := refs, refg := refg,
    lowtaucs := lowtaucs, lowtaucg := lowtaucg, hightaucs := hightaucs,
    hightaucg := hightaucg, sands := sands, sandb := sandb, gravs := gravs, gravb := gravb }

/-- Constructor tSedTransMineTailings::tSedTransMineTailings, erosion.cpp
lines 937-968: textually the same derived-constant block as the Wilcock
constructor (lines 955-967). -/
noncomputable def mkMineTailings (grade0 grade1 : ℝ) : WilcockParams :=
  let taudim := RHO * GRAV
  let refs := (RHOSED - RHO) * (981 / 100) * grade0
  let refg := (RHOSED - RHO) * (981 / 100) * grade1
  let lowtaucs := (8 / 10) * (grade1 / grade0) * (40 / 1000) * refs * (8531 / 10000)
  let lowtaucg := (4 / 100) * refg * (8531 / 10000)
  let hightaucs := (4 / 100) * refs * (8531 / 10000)
  let hightaucg := (1 / 100) * refg * (8531 / 10000)
  let sands := (lowtaucs - hightaucs) / (-(3 / 10))
  let sandb := lowtaucs - sands * (1 / 10)
  let gravs := (lowtaucg - hightaucg) / (-(3 / 10))
  let gravb := lowtaucg - gravs * (1 / 10)
  { grade0 := grade0, grade1 := grade1, taudim := taudim, refs := refs, refg := refg,
    lowtaucs := lowtaucs, lowtaucg := lowtaucg, hightaucs := hightaucs,
    hightaucg := hightaucg, sands := sands, sandb := sandb, gravs := gravs, gravb := gravb }

/-- The critical shear stress for the sand fraction as a function of the
sand percentage: the three-way branch appearing identically in all four
Wilcock and mine-tailings TransCapacity bodies (erosion.cpp lines 780-785,
879-884, 1018-1023, 1114-1119). -/
noncomputable def taucritSand (w : WilcockParams) (persand : ℝ) : ℝ :=
  if persand < 1 / 10 then w.lowtaucs
  else if persand ≤ 4 / 10 then w.sands * persand + w.sandb
  else w.hightaucs

/-- The critical shear stress for the gravel fraction as a function of the
sand percentage (erosion.cpp lines 797-802, 900-905, 1035-1040,
1142-1147). -/
noncomputable def taucritGravel (w : WilcockParams) (persand : ℝ) : ℝ :=
  if persand < 1 / 10 then w.lowtaucg
  else if persand ≤ 4 / 10 then w.gravs * persand + w.gravb
  else w.hightaucg

/-- tSedTransWilcock::TransCapacity(tLNode), erosion.cpp lines 747-816:
whole-node form.  The function cannot abort (no ReportFatalError path),
so it is total; the pair is (return value, node after the setQs side
effects). -/
noncomputable def WilcockTransCapacityNode (w : WilcockParams) (nd : tLNode) :
    ℝ × tLNode :=
  let persand := nd.layerDgrade 0 0 / nd.layerDepth 0
  let factor := nd.layerDepth 0 / nd.maxregdep
  if nd.slope < 0 then
    (0, { nd with qs0 := 0, qs1 := 0, qs := 0 })
  else
    let tau := w.taudim * (nd.hydrRough * nd.q * YEARPERSEC / nd.hydrWidth) ^ (6 / 10 : ℝ) *
      nd.slope ^ (7 / 10 : ℝ)
    let taucs := taucritSand w persand
    let qss := if tau > taucs then
        (58 / 1000) / RHOSED * factor * nd.hydrWidth * SECPERYEAR * persand *
          tau ^ (15 / 10 : ℝ) * (1 - Real.sqrt (taucs / tau)) ^ (45 / 10 : ℝ)
      else 0
    let taucg := taucritGravel w persand
    let qsg := if tau > taucg then
        (58 / 1000) * SECPERYEAR * factor * nd.hydrWidth / RHOSED * (1 - persand) *
          tau ^ (15 / 10 : ℝ) * (1 - taucg / tau) ^ (45 / 10 : ℝ)
      else 0
    (qss + qsg, { nd with tau := nd.tau, qs0 := qss, qs1 := qsg, qs := qss + qsg })

/-- tSedTransWilcock::TransCapacity(tLNode, int, double), erosion.cpp
lines 840-924: per-layer weighted form.  The assert on the layer depth is
a debug check (modelled as a no-op); addQs(i, v) is the external tLNode
mutator that adds v to the per-size flux i and to the scalar total. -/
noncomputable def WilcockTransCapacityLayer (w : WilcockParams) (nd : tLNode)
    (i : ℕ) (weight : ℝ) : ℝ × tLNode :=
  let persand := nd.layerDgrade i 0 / nd.layerDepth i
  if nd.slope < 0 then
    (0, { nd with qs0 := 0, qs1 := if nd.numg = 2 then 0 else nd.qs1, qs := 0 })
  else
    let tau := w.taudim * ((3 / 100 : ℝ) ^ (6 / 10 : ℝ)) * (nd.q / SECPERYEAR) ^ (3 / 10 : ℝ) *
      nd.slope ^ (7 / 10 : ℝ)
    let taucs := taucritSand w persand
    let qss := if tau > taucs then
        (58 / 1000) / RHOSED * weight * nd.hydrWidth * SECPERYEAR * persand *
          tau ^ (15 / 10 : ℝ) * (1 - Real.sqrt (taucs / tau)) ^ (45 / 10 : ℝ)
      else 0
    let nd1 := if tau > taucs then { nd with qs0 := nd.qs0 + qss, qs := nd.qs + qss } else nd
    let taucg := taucritGravel w persand
    let qsg := if nd.numg = 2 ∧ tau > taucg then
        (58 / 1000) * SECPERYEAR * weight * nd.hydrWidth / RHOSED * (1 - persand) *
          tau ^ (15 / 10 : ℝ) * (1 - taucg / tau) ^ (45 / 10 : ℝ)
      else 0
    let nd2 := if nd.numg = 2 ∧ tau > taucg then
        { nd1 with qs1 := nd1.qs1 + qsg, qs := nd1.qs + qsg } else nd1
    (qsg + qss, nd2)

/-- tSedTransMineTailings::TransCapacity(tLNode), erosion.cpp lines
988-1053: whole-node form of the Willgoose-Riley mine-tailings law. -/
noncomputable def MineTailingsTransCapacityNode (w : WilcockParams) (nd : tLNode) :
    ℝ × tLNode :=
  let persand := nd.layerDgrade 0 0 / nd.layerDepth 0
  if nd.slope < 0 then
    (0, { nd with qs0 := 0, qs1 := 0, qs := 0 })
  else
    let tau := w.taudim * ((3 / 100 : ℝ) ^ (6 / 10 : ℝ)) * (nd.q / SECPERYEAR) ^ (3 / 10 : ℝ) *
      nd.slope ^ (7 / 10 : ℝ)
    let taucs := taucritSand w persand
    let qss := if tau > taucs then
        (541 / 10000) / RHOSED * SECPERYEAR * persand * (nd.q / SECPERYEAR) ^ (112 / 100 : ℝ) *
          nd.slope ^ (-(24 / 100) : ℝ) * (tau - taucs)
      else 0
    let taucg := taucritGravel w persand
    let qsg := if tau > taucg then
        (541 / 10000) / RHOSED * SECPERYEAR * (1 - persand) * (nd.q / SECPERYEAR) ^ (112 / 100 : ℝ) *
          nd.slope ^ (-(24 / 100) : ℝ) * (tau - taucg)
      else 0
    (qss + qsg, { nd with qs0 := qss, qs1 := qsg, qs := qss + qsg })

/-- tSedTransMineTailings::TransCapacity(tLNode, int, double), erosion.cpp
lines 1078-1169: per-layer weighted form. -/
noncomputable def MineTailingsTransCapacityLayer (w : WilcockParams) (nd : tLNode)
    (i : ℕ) (weight : ℝ) : ℝ × tLNode :=
  let persand := nd.layerDgrade i 0 / nd.layerDepth i
  if nd.slope < 0 then
    (0, { nd with qs0 := 0, qs1 := if nd.numg = 2 then 0 else nd.qs1, qs := 0 })
  else
    let tau := w.taudim * ((3 / 100 : ℝ) ^ (6 / 10 : ℝ)) * (nd.q / SECPERYEAR) ^ (3 / 10 : ℝ) *
      nd.slope ^ (7 / 10 : ℝ)
    let taucs := taucritSand w persand
    let qss := if tau > taucs then
        (541 / 10000) / RHOSED * weight * SECPERYEAR * persand *
          (nd.q / SECPERYEAR) ^ (112 / 100 : ℝ) * nd.slope ^ (-(24 / 100) : ℝ) * (tau - taucs)
      else 0
    let nd1 := if tau > taucs then { nd with qs0 := nd.qs0 + qss, qs := nd.qs + qss } else nd
    let taucg := taucritGravel w persand
    let qsg := if nd.numg = 2 ∧ tau > taucg then
        (541 / 10000) / RHOSED * weight * SECPERYEAR * (1 - persand) *
          (nd.q / SECPERYEAR) ^ (112 / 100 : ℝ) * nd.slope ^ (-(24 / 100) : ℝ) * (tau - taucg)
      else 0
    let nd2 := if nd.numg = 2 ∧ tau > taucg then
        { nd1 with qs1 := nd1.qs1 + qsg, qs := nd1.qs + qsg } else nd1
    (qsg + qss, nd2)

/-- Parameters of tSedTransPwrLawMulti (erosion.cpp lines 572-616). -/
structure tSedTransPwrLawMulti where
  kf : ℝ
  kt : ℝ
  mf : ℝ
  nf : ℝ
  pf : ℝ
  mdGrndiam : ℕ → ℝ
  mdTauc : ℕ → ℝ
  mdHidingexp : ℝ
  miNumgrnsizes : ℕ

/-- tSedTransPwrLawMulti::TransCapacity(tLNode), erosion.cpp lines
679-682: the whole-node call shape.  The body is the single statement
that returns 0.0; nothing on the node is read or written. -/
noncomputable def MultiTransCapacityNode (_m : tSedTransPwrLawMulti) (node : tLNode) :
    ℝ × tLNode :=
  (0, node)

/-- The per-node regime selection in the apply phase of
tErosion::DetachErode, erosion.cpp lines 2103-2122: from the node state
(accumulated capacity qs, incoming flux qsin, Voronoi area, stored
detachment rate drdt) and the chosen sub-step dtmax it yields the total
elevation change dz handed to the layer walk, together with the flag
(false means detach-limited, dz computed from drdt; true means
transport-limited, dz computed from the excess capacity). -/
noncomputable def detachErodeApplyDz (n : tLNode) (dtmax : ℝ) : ℝ × Bool :=
  let excap := (n.qs - n.qsin) / n.varea
  if -n.drdt < excap then (n.drdt * dtmax, false) else (-excap * dtmax, true)

/-- The per-node rate selection in the rate-estimation phase of
tErosion::DetachErode, erosion.cpp lines 2034-2050: setDzDt(drdt)
followed by the conditional override setDzDt(-excap). -/
noncomputable def detachErodeRateDzDt (n : tLNode) : ℝ :=
  let excap := (n.qs - n.qsin) / n.varea
  if -n.drdt > excap then -excap else n.drdt

/-- The common shape of the sub-stepping loops of the tErosion
integrators: each pass picks the sub-step dtmax from the remaining time
and the current per-node data (pick), applies the erosion of that
sub-step to the external node state (substep, standing for the per-node
EroDep and flux updates the loop performs through the mesh), subtracts
dtmax from the remaining time and repeats while the remainder exceeds the
exit tolerance tol.  fuel bounds the number of passes (the C++ loop is
unbounded; termination is proved, not assumed); k indexes the per-pass
node data; acc accumulates the applied sub-step durations. -/
def integratorLoop {σ : Type} (pick : ℕ → ℚ → ℚ) (tol : ℚ) (substep : σ → ℚ → σ) :
    ℕ → ℕ → ℚ → ℚ → σ → Option (ℚ × σ)
  | 0, _, _, _, _ => none
  | fuel + 1, k, rem, acc, st =>
    let dtmax := pick k rem
    let st' := substep st dtmax
    let acc' := acc + dtmax
    let rem' := rem - dtmax
    if rem' > tol then integratorLoop pick tol substep fuel (k + 1) rem' acc' st'
    else some (acc', st')

/-- Sub-step choice of tErosion::ErodeDetachLim(dtg, strmNet), erosion.cpp
lines 1255-1266: dtmax starts at the remaining time; every node whose
downstream rate difference is positive contributes the raw candidate
(z difference over rate difference), which is scaled by frac = 0.9 and
adopted when above 0.000005 and below the current dtmax. -/
def pickErodeDetachLim1 (s : ℕ → List ℚ) (k : ℕ) (rem : ℚ) : ℚ :=
  (s k).foldl
    (fun cur raw =>
      let dt := raw * (9 / 10)
      if 1 / 200000 < dt ∧ dt < cur then dt else cur) rem

/-- tErosion::ErodeDetachLim(dtg, strmNet), erosion.cpp lines 1226-1285,
as its sub-stepping skeleton: exit tolerance 0.0000001 (line 1283). -/
def ErodeDetachLim1 {σ : Type} (s : ℕ → List ℚ) (substep : σ → ℚ → σ) (fuel : ℕ)
    (dtg : ℚ) (st : σ) : Option (ℚ × σ) :=
  integratorLoop (pickErodeDetachLim1 s) (1 / 10000000) substep fuel 0 dtg 0 st

/-- Sub-step choice of tErosion::ErodeDetachLim(dtg, strmNet, UPtr),
erosion.cpp lines 1323-1358: candidates from converging node pairs are
scaled by frac = 0.1 and adopted when inside (dtmin, dtmax); otherwise
dtmax is forced to the floor dtmin. -/
def pickErodeDetachLim2 (dtmin : ℚ) (s : ℕ → List ℚ) (k : ℕ) (rem : ℚ) : ℚ :=
  (s k).foldl
    (fun cur raw =>
      let dt := raw * (1 / 10)
      if dtmin < dt ∧ dt < cur then dt else dtmin) rem

/-- tErosion::ErodeDetachLim(dtg, strmNet, UPtr), erosion.cpp lines
1300-1373: dtmin = dtg * 0.0001 fixed at entry (line 1312), exit
condition dtg > 0 (line 1371). -/
def ErodeDetachLim2 {σ : Type} (s : ℕ → List ℚ) (substep : σ → ℚ → σ) (fuel : ℕ)
    (dtg : ℚ) (st : σ) : Option (ℚ × σ) :=
  integratorLoop (pickErodeDetachLim2 (dtg * (1 / 10000)) s) 0 substep fuel 0 dtg 0 st

/-- Sub-step choice of tErosion::StreamErode, erosion.cpp lines 1448-1467:
dtmax starts at dtg/frac, is lowered to any smaller raw candidate,
multiplied by frac = 0.3, and clamped below by kSmallTimeStep = 1e-8. -/
def pickStreamErode (s : ℕ → List ℚ) (k : ℕ) (rem : ℚ) : ℚ :=
  let m := (s k).foldl (fun cur raw => if raw < cur then raw else cur) (rem / (3 / 10))
  let d := m * (3 / 10)
  if d < 1 / 100000000 then 1 / 100000000 else d

/-- tErosion::StreamErode, erosion.cpp lines 1385-1587, as its
sub-stepping skeleton: exit tolerance 1e-6 (line 1584). -/
def StreamErode {σ : Type} (s : ℕ → List ℚ) (substep : σ → ℚ → σ) (fuel : ℕ)
    (dtg : ℚ) (st : σ) : Option (ℚ × σ) :=
  integratorLoop (pickStreamErode s) (1 / 1000000) substep fuel 0 dtg 0 st

/-- Sub-step choice of tErosion::StreamErodeMulti, erosion.cpp lines
1741-1765: like StreamErode but any candidate below 1e-6 forces
dtmax = 0.005 before the final multiplication by frac = 0.3. -/
def pickStreamErodeMulti (s : ℕ → List ℚ) (k : ℕ) (rem : ℚ) : ℚ :=
  ((s k).foldl
    (fun cur raw =>
      let c1 := if raw < cur then raw else cur
      if raw < 1 / 1000000 then 1 / 200 else c1) (rem / (3 / 10))) * (3 / 10)

/-- tErosion::StreamErodeMulti, erosion.cpp lines 1601-1914, as its
sub-stepping skeleton: exit tolerance 1e-6 (line 1912). -/
def StreamErodeMulti {σ : Type} (s : ℕ → List ℚ) (substep : σ → ℚ → σ) (fuel : ℕ)
    (dtg : ℚ) (st : σ) : Option (ℚ × σ) :=
  integratorLoop (pickStreamErodeMulti s) (1 / 1000000) substep fuel 0 dtg 0 st

/-- Sub-step choice of tErosion::DetachErode, erosion.cpp lines 2055-2094:
like StreamErodeMulti but the override threshold and value are both
0.0001, and frac = 0.3. -/
def pickDetachErode (s : ℕ → List ℚ) (k : ℕ) (rem : ℚ) : ℚ :=
  ((s k).foldl
    (fun cur raw =>
      let c1 := if raw < cur then raw else cur
      if raw < 1 / 10000 then 1 / 10000 else c1) (rem / (3 / 10))) * (3 / 10)

/-- tErosion::DetachErode, erosion.cpp lines 1927-2242, as its guarded
sub-stepping skeleton: the whole integration runs only when
rainrate - infilt > 0 (line 1931); otherwise nothing happens and the node
state is returned untouched with no sub-step applied.  Exit tolerance
1e-6 (line 2237). -/
def DetachErode {σ : Type} (rainrate infilt : ℚ) (s : ℕ → List ℚ)
    (substep : σ → ℚ → σ) (fuel : ℕ) (dtg : ℚ) (net : σ) : Option (ℚ × σ) :=
  if rainrate - infilt > 0 then
    integratorLoop (pickDetachErode s) (1 / 1000000) substep fuel 0 dtg 0 net
  else some (0, net)

/-- The Courant bound computed once before the tErosion::Diffuse loop,
erosion.cpp lines 2301-2323: edges are (edge length, Voronoi edge length)
pairs; when kd times the Voronoi length exceeds kVerySmall = 1e-6 the
bound kEpsOver2 * length / (kd * Voronoi length) lowers dtmax, starting
from the requested duration rt. -/
def diffusePick (kd : ℚ) (edges : List (ℚ × ℚ)) (rt : ℚ) : ℚ :=
  edges.foldl
    (fun cur e =>
      if kd * e.2 > 1 / 1000000 then
        let delt := (1 / 10) * (e.1 / (kd * e.2))
        if delt < cur then delt else cur
      else cur) rt

/-- The sub-stepping loop of tErosion::Diffuse, erosion.cpp lines
2326-2371: apply a sub-step of size dtmax, subtract it from rt, shrink
dtmax to the new remainder when it overshoots, repeat while rt > 0. -/
def diffuseLoop {σ : Type} (substep : σ → ℚ → σ) :
    ℕ → ℚ → ℚ → ℚ → σ → Option (ℚ × σ)
  | 0, _, _, _, _ => none
  | fuel + 1, rt, dtmax, acc, st =>
    let st' := substep st dtmax
    let acc' := acc + dtmax
    let rt' := rt - dtmax
    let dtmax' := if dtmax > rt' then rt' else dtmax
    if rt' > 0 then diffuseLoop substep fuel rt' dtmax' acc' st'
    else some (acc', st')

/-- tErosion::Diffuse, erosion.cpp lines 2282-2374, as its sub-stepping
skeleton over the once-computed Courant bound. -/
def Diffuse {σ : Type} (kd : ℚ) (edges : List (ℚ × ℚ)) (substep : σ → ℚ → σ)
    (fuel : ℕ) (rt : ℚ) (st : σ) : Option (ℚ × σ) :=
  diffuseLoop substep fuel rt (diffusePick kd edges rt) 0 st

/-- Concrete candidate stream exhibiting the overflow of the claimed
tolerance in the uplift variant of ErodeDetachLim: on the first pass one
converging node pair yields the raw candidate 9.9999 (so dt = 0.99999
after the frac = 0.1 scaling), on the second a pair yields raw 5 (so
dt = 0.5, outside (dtmin, dtmax), forcing dtmax to the floor dtmin). -/
def sCE : ℕ → List ℚ
  | 0 => [99999 / 10000]
  | _ => [5]

/-- tEquilibCheck::FindIterChngRate, erosion.cpp lines 133-164.  The mesh
scan that produces the domain mean elevation is external; the function
takes the new sample (current time t, mean elevation m) directly.
Returns (new shortRate, new massList).  On the first call the rate is
m / t (line 160); afterwards it is the difference quotient against the
last stored sample (lines 151-154). -/
def findIterChngRate (ml : List (ℚ × ℚ)) (t m : ℚ) : ℚ × List (ℚ × ℚ) :=
  if ml.isEmpty then (m / t, ml ++ [(t, m)])
  else
    let last := ml.getLastD (0, 0)
    ((m - last.2) / (t - last.1), ml ++ [(t, m)])

/-- The scan loop of tEquilibCheck::FindLongTermChngRate, erosion.cpp
lines 185-191: ca starts at the first entry, na walks the rest; while
na's time is below the target time, ca trails one behind na. -/
def scanCa (target : ℚ) (ca : ℚ × ℚ) : List (ℚ × ℚ) → ℚ × ℚ
  | [] => ca
  | na :: rest => if na.1 < target then scanCa target na rest else ca

/-- tEquilibCheck::FindLongTermChngRate, erosion.cpp lines 175-197: first
updates the history through FindIterChngRate with the new sample (t, m),
then either copies shortRate (longTime zero or single-entry history,
line 182) or computes the rate from the entry ca at which the scan
stopped to the latest entry (lines 185-194).  Returns
(longRate, shortRate, massList). -/
def findLongTermChngRate (longTime : ℚ) (ml : List (ℚ × ℚ)) (t m : ℚ) :
    ℚ × ℚ × List (ℚ × ℚ) :=
  let p := findIterChngRate ml t m
  let shortRate := p.1
  let massList := p.2
  let last := massList.getLastD (0, 0)
  if longTime = 0 ∨ massList.length = 1 then (shortRate, shortRate, massList)
  else
    let ca := scanCa (last.1 - longTime) massList.headI massList.tail
    ((last.2 - ca.2) / (last.1 - ca.1), shortRate, massList)

/-- The long-term rate as the checked claim words it: the rate between
the latest entry and the earliest history entry whose time is at least
(latest time minus longTime).  Stated from the claim text, to be compared
with findLongTermChngRate, which is the translation of the code. -/
def claimLongTermRate (longTime : ℚ) (massList : List (ℚ × ℚ)) (shortRate : ℚ) : ℚ :=
  let last := massList.getLastD (0, 0)
  if longTime = 0 ∨ massList.length = 1 then shortRate
  else
    match massList.find? (fun e => decide (last.1 - longTime ≤ e.1)) with
    | some e => (last.2 - e.2) / (last.1 - e.1)
    | none => shortRate

/-- Per-node state of the hillslope diffusion pass: elevation, the sed
influx accumulator and the Voronoi area. -/
structure DifNode where
  z : ℚ
  qsin : ℚ
  varea : ℚ

/-- A directed mesh edge as visited by the tErosion::Diffuse edge loop
(one of each complementary pair): origin node index, destination node
index, the value of ce->CalcSlope(), and the Voronoi edge length. -/
structure DifEdge where
  orig : ℕ
  dest : ℕ
  calcSlope : ℚ
  vedglen : ℚ

/-- The Qsin reset at the top of each Diffuse sub-step, erosion.cpp lines
2329-2330. -/
def diffuseReset (ns : ℕ → DifNode) : ℕ → DifNode :=
  fun i => { ns i with qsin := 0 }

/-- The edge loop of a Diffuse sub-step, erosion.cpp lines 2333-2352:
for each visited edge, volout = kd * CalcSlope * Voronoi length * dtmax
leaves the origin accumulator and enters the destination accumulator. -/
def diffuseAccumulate (kd dtmax : ℚ) (edges : List DifEdge) (ns : ℕ → DifNode) :
    ℕ → DifNode :=
  edges.foldl
    (fun f e =>
      let volout := kd * e.calcSlope * e.vedglen * dtmax
      let f1 := Function.update f e.orig { f e.orig with qsin := (f e.orig).qsin - volout }
      Function.update f1 e.dest { f1 e.dest with qsin := (f1 e.dest).qsin + volout }) ns

/-- The node loop of a Diffuse sub-step, erosion.cpp lines 2355-2366:
with noDepoFlag set, a positive accumulated influx is clamped to zero
before EroDep applies qsin divided by the Voronoi area to the
elevation. -/
def diffuseApply (noDepoFlag : Bool) (ns : ℕ → DifNode) : ℕ → DifNode :=
  fun i =>
    let n := ns i
    let qclamped := if noDepoFlag ∧ n.qsin > 0 then 0 else n.qsin
    { n with z := n.z + qclamped / n.varea, qsin := qclamped }

/-- One full sub-step of tErosion::Diffuse over the node state: reset the
accumulators, run the edge loop, then apply the (possibly clamped) net
influx to each elevation. -/
def diffuseSubstep (kd dtmax : ℚ) (noDepoFlag : Bool) (edges : List DifEdge)
    (ns : ℕ → DifNode) : ℕ → DifNode :=
  diffuseApply noDepoFlag (diffuseAccumulate kd dtmax edges (diffuseReset ns))

/-- Concrete detachment-law parameters (kb, kt, mb, nb, pb, taucd) used by
the closed witness instances. -/
noncomputable def lawUnit : tBedErodePwrLaw := ⟨0, 1, 1, 1, 1, 0⟩

/-- Concrete non-flooded node with negative slope, used by the closed
witness instances. -/
noncomputable def nodeNegSlope : tLNode := { slope := -1 }

/-- Concrete node used by the monotonicity witness. -/
noncomputable def nodeMono : tLNode :=
  { slope := 1, q := 1, hydrWidth := 1, layerErody := fun _ => 1 }

/-- Concrete node used by the regime-selection witness: detachment
capacity 1, excess capacity 4. -/
noncomputable def nodeRegime : tLNode := { drdt := -1, qs := 4, qsin := 0, varea := 1 }

/-- Concrete diffusion node state used by the no-deposition witness. -/
def difNodesWit : ℕ → DifNode := fun _ => ⟨0, 0, 1⟩

/-- Concrete edge list used by the no-deposition witness. -/
def difEdgesWit : List DifEdge := [⟨0, 1, 1, 1⟩]

theorem ite_gt_zero_eq_max (x : ℝ) : (if x > 0 then x else 0) = max 0 x := by
  rcases lt_or_le 0 x with h | h
  · rw [if_pos h, max_eq_right h.le]
  · rw [if_neg (not_lt.2 h), max_eq_left h]

/-- C10: the whole-node call shape of the multi-fraction power law,
tSedTransPwrLawMulti::TransCapacity(tLNode), returns 0.0 for every node
and every parameter set, performing no computation and writing nothing to
the node. -/
theorem multiTransCapacity_wholeNode_zero (m : tSedTransPwrLawMulti) (node : tLNode) :
    MultiTransCapacityNode m node = (0, node) := rfl

/-- C7: when rain rate minus infiltration is not strictly positive, a call
to tErosion::DetachErode performs no sub-step and returns the node state
unchanged (zero total sub-step time applied, identical state, no fatal
outcome). -/
theorem detachErode_noRunoff_noop {σ : Type} (rainrate infilt : ℚ) (s : ℕ → List ℚ)
    (substep : σ → ℚ → σ) (fuel : ℕ) (dtg : ℚ) (net : σ)
    (h : rainrate - infilt ≤ 0) :
    DetachErode rainrate infilt s substep fuel dtg net = some (0, net) := by
  rw [DetachErode, if_neg (not_lt.2 h)]

theorem detachErode_noRunoff_noop_witness :
    DetachErode 1 2 (fun _ => []) (fun (u : Unit) _ => u) 5 10 () = some (0, ()) :=
  detachErode_noRunoff_noop 1 2 (fun _ => []) (fun (u : Unit) _ => u) 5 10 () (by norm_num)

/-- C1: in the apply phase of tErosion::DetachErode, with excess capacity
excap = (Qs - Qsin) / Voronoi area, a node whose detachment capacity
(-drdt) is strictly below excap is detach-limited: the elevation change
handed to the layer walk is exactly drdt * dtmax; otherwise it is
transport-limited and the change is exactly -excap * dtmax.  The rate
phase makes the matching choice for DzDt. -/
theorem detachErode_regime_selection (n : tLNode) (dtmax : ℝ) :
    (-n.drdt < (n.qs - n.qsin) / n.varea →
      detachErodeApplyDz n dtmax = (n.drdt * dtmax, false) ∧
      detachErodeRateDzDt n = n.drdt) ∧
    ((n.qs - n.qsin) / n.varea ≤ -n.drdt →
      detachErodeApplyDz n dtmax = (-((n.qs - n.qsin) / n.varea) * dtmax, true) ∧
      detachErodeRateDzDt n = -((n.qs - n.qsin) / n.varea)) := by
  refine ⟨fun h => ⟨?_, ?_⟩, fun h => ⟨?_, ?_⟩⟩
  · simp only [detachErodeApplyDz]
    rw [if_pos h]
  · simp only [detachErodeRateDzDt]
    rw [if_neg (not_lt.2 h.le)]
  · simp only [detachErodeApplyDz]
    rw [if_neg (not_lt.2 h)]
  · simp only [detachErodeRateDzDt]
    rcases lt_or_eq_of_le h with h' | h'
    · rw [if_pos h']
    · rw [if_neg (not_lt.2 h'.ge)]
      linarith [h']

theorem detachErode_regime_selection_witness :
    detachErodeApplyDz nodeRegime 2 = (nodeRegime.drdt * 2, false) ∧
    detachErodeRateDzDt nodeRegime = nodeRegime.drdt :=
  (detachErode_regime_selection nodeRegime 2).1 (by norm_num [nodeRegime])

theorem detachCapacityDt_eval (law : tBedErodePwrLaw) (n : tLNode) (dt : ℝ)
    (hf : n.floodStatus = false) (hs : 0 ≤ n.slope) :
    DetachCapacityDt law n dt =
      some (n.layerErody 0 *
          (max 0 (law.kt * (n.q / n.hydrWidth) ^ law.mb * n.slope ^ law.nb - n.tauCrit)) ^ law.pb * dt,
        { n with tau := law.kt * (n.q / n.hydrWidth) ^ law.mb * n.slope ^ law.nb }) := by
  simp only [DetachCapacityDt, hf, Bool.false_eq_true, if_false, ite_gt_zero_eq_max]
  rw [if_neg (not_lt.2 hs)]

theorem detachCapacityRate_eval (law : tBedErodePwrLaw) (n : tLNode)
    (hf : n.floodStatus = false) (hs : 0 ≤ n.slope) :
    DetachCapacityRate law n =
      some (n.layerErody 0 *
          (max 0 (law.kt * (n.q / n.hydrWidth) ^ law.mb * n.slope ^ law.nb - n.tauCrit)) ^ law.pb,
        { n with tau := law.kt * (n.q / n.hydrWidth) ^ law.mb * n.slope ^ law.nb,
                 drdt := -(n.layerErody 0 *
                   (max 0 (law.kt * (n.q / n.hydrWidth) ^ law.mb * n.slope ^ law.nb - n.tauCrit)) ^ law.pb) }) := by
  simp only [DetachCapacityRate, hf, Bool.false_eq_true, if_false, ite_gt_zero_eq_max]
  rw [if_neg (not_lt.2 hs)]

theorem detachCapacityLayer_eval (law : tBedErodePwrLaw) (n : tLNode) (i : ℕ)
    (hf : n.floodStatus = false) (hs : 0 ≤ n.slope) :
    DetachCapacityLayer law n i =
      some (n.layerErody i *
          (max 0 (law.kt * (n.q / n.hydrWidth) ^ law.mb * n.slope ^ law.nb - n.tauCrit)) ^ law.pb,
        { n with tau := law.kt * (n.q / n.hydrWidth) ^ law.mb * n.slope ^ law.nb,
                 drdt := -(n.layerErody i *
                   (max 0 (law.kt * (n.q / n.hydrWidth) ^ law.mb * n.slope ^ law.nb - n.tauCrit)) ^ law.pb) }) := by
  simp only [DetachCapacityLayer, hf, Bool.false_eq_true, if_false, ite_gt_zero_eq_max]
  rw [if_neg (not_lt.2 hs)]

/-- C4: all three call shapes of tBedErodePwrLaw::DetachCapacity return 0
for a flooded node (leaving it untouched); for a non-flooded node with
non-negative slope they compute and store the shear stress
tau = kt * (Q / width) ^ mb * slope ^ nb and return
erodibility * max(0, tau - node critical shear) ^ pb, times dt in the
depth form, and the two rate forms also store the negated rate as DrDt;
a non-flooded node with negative slope is a fatal abort in every shape. -/
theorem detachCapacity_shapes (law : tBedErodePwrLaw) (n : tLNode) (dt : ℝ) (i : ℕ) :
    (n.floodStatus = true →
      DetachCapacityDt law n dt = some (0, n) ∧
      DetachCapacityRate law n = some (0, n) ∧
      DetachCapacityLayer law n i = some (0, n)) ∧
    (n.floodStatus = false → 0 ≤ n.slope →
      DetachCapacityDt law n dt =
        some (n.layerErody 0 *
            (max 0 (law.kt * (n.q / n.hydrWidth) ^ law.mb * n.slope ^ law.nb - n.tauCrit)) ^ law.pb * dt,
          { n with tau := law.kt * (n.q / n.hydrWidth) ^ law.mb * n.slope ^ law.nb }) ∧
      DetachCapacityRate law n =
        some (n.layerErody 0 *
            (max 0 (law.kt * (n.q / n.hydrWidth) ^ law.mb * n.slope ^ law.nb - n.tauCrit)) ^ law.pb,
          { n with tau := law.kt * (n.q / n.hydrWidth) ^ law.mb * n.slope ^ law.nb,
                   drdt := -(n.layerErody 0 *
                     (max 0 (law.kt * (n.q / n.hydrWidth) ^ law.mb * n.slope ^ law.nb - n.tauCrit)) ^ law.pb) }) ∧
      DetachCapacityLayer law n i =
        some (n.layerErody i *
            (max 0 (law.kt * (n.q / n.hydrWidth) ^ law.mb * n.slope ^ law.nb - n.tauCrit)) ^ law.pb,
          { n with tau := law.kt * (n.q / n.hydrWidth) ^ law.mb * n.slope ^ law.nb,
                   drdt := -(n.layerErody i *
                     (max 0 (law.kt * (n.q / n.hydrWidth) ^ law.mb * n.slope ^ law.nb - n.tauCrit)) ^ law.pb) })) ∧
    (n.floodStatus = false → n.slope < 0 →
      DetachCapacityDt law n dt = none ∧
      DetachCapacityRate law n = none ∧
      DetachCapacityLayer law n i = none) := by
  refine ⟨fun hf => ?_, fun hf hs => ?_, fun hf hs => ?_⟩
  · simp [DetachCapacityDt, DetachCapacityRate, DetachCapacityLayer, hf]
  · exact ⟨detachCapacityDt_eval law n dt hf hs, detachCapacityRate_eval law n hf hs,
      detachCapacityLayer_eval law n i hf hs⟩
  · refine ⟨?_, ?_, ?_⟩ <;>
      · simp only [DetachCapacityDt, DetachCapacityRate, DetachCapacityLayer, hf,
          Bool.false_eq_true, if_false]
        rw [if_pos hs]

theorem detachCapacity_shapes_witness :
    DetachCapacityDt lawUnit nodeNegSlope 1 = none ∧
    DetachCapacityRate lawUnit nodeNegSlope = none ∧
    DetachCapacityLayer lawUnit nodeNegSlope 0 = none :=
  (detachCapacity_shapes lawUnit nodeNegSlope 1 0).2.2 rfl (by norm_num [nodeNegSlope])

/-- C9: for non-negative exponents mb, nb and non-negative kt, pb and
layer erodibility, the rate returned by tBedErodePwrLaw::DetachCapacity
is monotonically non-decreasing in the node discharge and slope, all
other node attributes held fixed (within the valid hydraulic domain:
positive channel width, non-negative discharge and slope, non-flooded). -/
theorem detachCapacity_monotone (law : tBedErodePwrLaw) (n : tLNode) (Q' S' : ℝ)
    (hmb : 0 ≤ law.mb) (hnb : 0 ≤ law.nb) (hkt : 0 ≤ law.kt) (hpb : 0 ≤ law.pb)
    (he : 0 ≤ n.layerErody 0) (hf : n.floodStatus = false) (hW : 0 < n.hydrWidth)
    (hQ0 : 0 ≤ n.q) (hS0 : 0 ≤ n.slope) (hQ : n.q ≤ Q') (hS : n.slope ≤ S') :
    ∃ r r' n1 n2,
      DetachCapacityRate law n = some (r, n1) ∧
      DetachCapacityRate law { n with q := Q', slope := S' } = some (r', n2) ∧
      r ≤ r' := by
  have hS0' : (0 : ℝ) ≤ S' := le_trans hS0 hS
  have hQ0' : (0 : ℝ) ≤ Q' := le_trans hQ0 hQ
  refine ⟨_, _, _, _, detachCapacityRate_eval law n hf hS0,
    detachCapacityRate_eval law { n with q := Q', slope := S' } hf hS0', ?_⟩
  have h1 : n.q / n.hydrWidth ≤ Q' / n.hydrWidth := by gcongr
  have h2 : (0 : ℝ) ≤ n.q / n.hydrWidth := div_nonneg hQ0 hW.le
  have h3 : (n.q / n.hydrWidth) ^ law.mb ≤ (Q' / n.hydrWidth) ^ law.mb :=
    Real.rpow_le_rpow h2 h1 hmb
  have h4 : n.slope ^ law.nb ≤ S' ^ law.nb := Real.rpow_le_rpow hS0 hS hnb
  have htau : law.kt * (n.q / n.hydrWidth) ^ law.mb * n.slope ^ law.nb ≤
      law.kt * (Q' / n.hydrWidth) ^ law.mb * S' ^ law.nb := by
    apply mul_le_mul (mul_le_mul_of_nonneg_left h3 hkt) h4 (Real.rpow_nonneg hS0 _)
    exact mul_nonneg hkt (Real.rpow_nonneg (div_nonneg hQ0' hW.le) _)
  have hmax : max 0 (law.kt * (n.q / n.hydrWidth) ^ law.mb * n.slope ^ law.nb - n.tauCrit) ≤
      max 0 (law.kt * (Q' / n.hydrWidth) ^ law.mb * S' ^ law.nb - n.tauCrit) :=
    max_le_max le_rfl (sub_le_sub_right htau _)
  have hpow := Real.rpow_le_rpow (le_max_left 0 _) hmax hpb
  exact mul_le_mul_of_nonneg_left hpow he

theorem detachCapacity_monotone_witness :
    ∃ r r' n1 n2,
      DetachCapacityRate lawUnit nodeMono = some (r, n1) ∧
      DetachCapacityRate lawUnit { nodeMono with q := 2, slope := 2 } = some (r', n2) ∧
      r ≤ r' :=
  detachCapacity_monotone lawUnit nodeMono 2 2 (by norm_num [lawUnit]) (by norm_num [lawUnit])
    (by norm_num [lawUnit]) (by norm_num [lawUnit]) (by norm_num [nodeMono]) rfl
    (by norm_num [nodeMono]) (by norm_num [nodeMono]) (by norm_num [nodeMono])
    (by norm_num [nodeMono]) (by norm_num [nodeMono])

/-- C5: in the Wilcock and mine-tailings laws the per-fraction critical
shear is lowtaucs / lowtaucg below 10 percent sand, hightaucs / hightaucg
above 40 percent, and the linear interpolant sands * p + sandb
(resp. gravs * p + gravb) in between; with the constructor constants the
interpolant meets the low value at p = 0.1 and the high value at p = 0.4,
so the piecewise function has no jump at either breakpoint.  The
mine-tailings constructor produces the identical constants. -/
theorem wilcock_taucrit_piecewise_continuous (g0 g1 : ℝ) :
    mkMineTailings g0 g1 = mkWilcock g0 g1 ∧
    (∀ p : ℝ, p < 1 / 10 →
      taucritSand (mkWilcock g0 g1) p = (mkWilcock g0 g1).lowtaucs ∧
      taucritGravel (mkWilcock g0 g1) p = (mkWilcock g0 g1).lowtaucg) ∧
    (∀ p : ℝ, 1 / 10 ≤ p → p ≤ 4 / 10 →
      taucritSand (mkWilcock g0 g1) p = (mkWilcock g0 g1).sands * p + (mkWilcock g0 g1).sandb ∧
      taucritGravel (mkWilcock g0 g1) p = (mkWilcock g0 g1).gravs * p + (mkWilcock g0 g1).gravb) ∧
    (∀ p : ℝ, 4 / 10 < p →
      taucritSand (mkWilcock g0 g1) p = (mkWilcock g0 g1).hightaucs ∧
      taucritGravel (mkWilcock g0 g1) p = (mkWilcock g0 g1).hightaucg) ∧
    (mkWilcock g0 g1).sands * (1 / 10) + (mkWilcock g0 g1).sandb = (mkWilcock g0 g1).lowtaucs ∧
    (mkWilcock g0 g1).sands * (4 / 10) + (mkWilcock g0 g1).sandb = (mkWilcock g0 g1).hightaucs ∧
    (mkWilcock g0 g1).gravs * (1 / 10) + (mkWilcock g0 g1).gravb = (mkWilcock g0 g1).lowtaucg ∧
    (mkWilcock g0 g1).gravs * (4 / 10) + (mkWilcock g0 g1).gravb = (mkWilcock g0 g1).hightaucg := by
  refine ⟨rfl, fun p hp => ⟨?_, ?_⟩, fun p hp1 hp2 => ⟨?_, ?_⟩, fun p hp => ⟨?_, ?_⟩,
    ?_, ?_, ?_, ?_⟩
  · rw [taucritSand, if_pos hp]
  · rw [taucritGravel, if_pos hp]
  · rw [taucritSand, if_neg (not_lt.2 hp1), if_pos hp2]
  · rw [taucritGravel, if_neg (not_lt.2 hp1), if_pos hp2]
  · rw [taucritSand, if_neg (not_lt.2 (le_trans (by norm_num) hp.le)), if_neg (not_le.2 hp)]
  · rw [taucritGravel, if_neg (not_lt.2 (le_trans (by norm_num) hp.le)), if_neg (not_le.2 hp)]
  · simp only [mkWilcock]; ring
  · simp only [mkWilcock]; ring
  · simp only [mkWilcock]; ring
  · simp only [mkWilcock]; ring

theorem wilcock_taucrit_piecewise_continuous_witness :
    taucritSand (mkWilcock (1 / 1000) (1 / 100)) 0 = (mkWilcock (1 / 1000) (1 / 100)).lowtaucs ∧
    taucritGravel (mkWilcock (1 / 1000) (1 / 100)) 0 = (mkWilcock (1 / 1000) (1 / 100)).lowtaucg :=
  (wilcock_taucrit_piecewise_continuous (1 / 1000) (1 / 100)).2.1 0 (by norm_num)

/-- C6: for a node with negative slope, all four Wilcock and mine-tailings
TransCapacity bodies (whole-node and per-layer-weighted shapes, with the
standard two grain classes) are not fatal: they zero the per-fraction and
total sediment-flux fields Qs of the node and return 0. -/
theorem transCapacity_negSlope_zero (w : WilcockParams) (nd : tLNode) (i : ℕ) (weight : ℝ)
    (hs : nd.slope < 0) (hg : nd.numg = 2) :
    WilcockTransCapacityNode w nd = (0, { nd with qs0 := 0, qs1 := 0, qs := 0 }) ∧
    MineTailingsTransCapacityNode w nd = (0, { nd with qs0 := 0, qs1 := 0, qs := 0 }) ∧
    WilcockTransCapacityLayer w nd i weight = (0, { nd with qs0 := 0, qs1 := 0, qs := 0 }) ∧
    MineTailingsTransCapacityLayer w nd i weight = (0, { nd with qs0 := 0, qs1 := 0, qs := 0 }) := by
  refine ⟨?_, ?_, ?_, ?_⟩ <;>
    simp [WilcockTransCapacityNode, MineTailingsTransCapacityNode,
      WilcockTransCapacityLayer, MineTailingsTransCapacityLayer, if_pos hs, hg]

theorem transCapacity_negSlope_zero_witness :
    WilcockTransCapacityNode (mkWilcock (1 / 1000) (1 / 100)) nodeNegSlope =
      (0, { nodeNegSlope with qs0 := 0, qs1 := 0, qs := 0 }) ∧
    MineTailingsTransCapacityNode (mkWilcock (1 / 1000) (1 / 100)) nodeNegSlope =
      (0, { nodeNegSlope with qs0 := 0, qs1 := 0, qs := 0 }) ∧
    WilcockTransCapacityLayer (mkWilcock (1 / 1000) (1 / 100)) nodeNegSlope 0 1 =
      (0, { nodeNegSlope with qs0 := 0, qs1 := 0, qs := 0 }) ∧
    MineTailingsTransCapacityLayer (mkWilcock (1 / 1000) (1 / 100)) nodeNegSlope 0 1 =
      (0, { nodeNegSlope with qs0 := 0, qs1 := 0, qs := 0 }) :=
  transCapacity_negSlope_zero (mkWilcock (1 / 1000) (1 / 100)) nodeNegSlope 0 1
    (by norm_num [nodeNegSlope]) rfl

theorem update_qsin_fields (f : ℕ → DifNode) (a : ℕ) (v : ℚ) (j : ℕ) :
    (Function.update f a { f a with qsin := v } j).z = (f j).z ∧
    (Function.update f a { f a with qsin := v } j).varea = (f j).varea := by
  rcases eq_or_ne j a with h | h
  · subst h; rw [Function.update_same]; exact ⟨rfl, rfl⟩
  · rw [Function.update_noteq h]; exact ⟨rfl, rfl⟩

theorem diffuseAccumulate_fields (kd dtmax : ℚ) :
    ∀ (edges : List DifEdge) (ns : ℕ → DifNode) (j : ℕ),
      (diffuseAccumulate kd dtmax edges ns j).z = (ns j).z ∧
      (diffuseAccumulate kd dtmax edges ns j).varea = (ns j).varea := by
  intro edges
  induction edges with
  | nil => intro ns j; exact ⟨rfl, rfl⟩
  | cons e tl ih =>
    intro ns j
    rw [diffuseAccumulate, List.foldl_cons, ← diffuseAccumulate]
    obtain ⟨hz, hv⟩ := ih (Function.update
      (Function.update ns e.orig
        { ns e.orig with qsin := (ns e.orig).qsin - kd * e.calcSlope * e.vedglen * dtmax })
      e.dest
      { (Function.update ns e.orig
          { ns e.orig with qsin := (ns e.orig).qsin - kd * e.calcSlope * e.vedglen * dtmax }) e.dest
          with qsin := ((Function.update ns e.orig
            { ns e.orig with qsin := (ns e.orig).qsin - kd * e.calcSlope * e.vedglen * dtmax })
              e.dest).qsin + kd * e.calcSlope * e.vedglen * dtmax }) j
    rw [hz, hv]
    obtain ⟨hz2, hv2⟩ := update_qsin_fields
      (Function.update ns e.orig
        { ns e.orig with qsin := (ns e.orig).qsin - kd * e.calcSlope * e.vedglen * dtmax })
      e.dest (((Function.update ns e.orig
        { ns e.orig with qsin := (ns e.orig).qsin - kd * e.calcSlope * e.vedglen * dtmax })
          e.dest).qsin + kd * e.calcSlope * e.vedglen * dtmax) j
    rw [hz2, hv2]
    exact update_qsin_fields ns e.orig
      ((ns e.orig).qsin - kd * e.calcSlope * e.vedglen * dtmax) j

/-- C8: a tErosion::Diffuse sub-step with noDepoFlag set never raises any
node elevation: whatever the slopes and edge transfers, the clamping of a
positive accumulated Qsin to zero makes the applied change
qsin / varea non-positive at every node with positive Voronoi area. -/
theorem diffuse_noDepo_monotone (kd dtmax : ℚ) (edges : List DifEdge) (ns : ℕ → DifNode)
    (i : ℕ) (hv : 0 < (ns i).varea) :
    (diffuseSubstep kd dtmax true edges ns i).z ≤ (ns i).z := by
  obtain ⟨hz, hva⟩ := diffuseAccumulate_fields kd dtmax edges (diffuseReset ns) i
  have hz' : (diffuseAccumulate kd dtmax edges (diffuseReset ns) i).z = (ns i).z := hz
  have hva' : (diffuseAccumulate kd dtmax edges (diffuseReset ns) i).varea = (ns i).varea := hva
  show (diffuseApply true (diffuseAccumulate kd dtmax edges (diffuseReset ns)) i).z ≤ (ns i).z
  simp only [diffuseApply]
  set mm := diffuseAccumulate kd dtmax edges (diffuseReset ns) with hmm
  have hq : (if True ∧ (mm i).qsin > 0 then 0 else (mm i).qsin) ≤ 0 := by
    by_cases h : (mm i).qsin > 0
    · simp [h]
    · simp only [true_and, h, if_false]
      exact not_lt.1 h
  have hdiv : (if True ∧ (mm i).qsin > 0 then 0 else (mm i).qsin) / (mm i).varea ≤ 0 := by
    rw [div_eq_mul_inv]
    refine mul_nonpos_iff.2 (Or.inr ⟨hq, ?_⟩)
    rw [hva']
    exact inv_nonneg.2 hv.le
  simp only [true_and] at hdiv ⊢
  rw [hz']
  linarith [hdiv]

theorem diffuse_noDepo_monotone_witness :
    (diffuseSubstep 1 1 true difEdgesWit difNodesWit 0).z ≤ (difNodesWit 0).z :=
  diffuse_noDepo_monotone 1 1 difEdgesWit difNodesWit 0 (by norm_num [difNodesWit])

theorem getLastD_concat (l : List (ℚ × ℚ)) (a d : ℚ × ℚ) : (l ++ [a]).getLastD d = a := by
  induction l generalizing d with
  | nil => rfl
  | cons x xs ih => rw [List.cons_append, List.getLastD_cons]; exact ih x

theorem scanCa_eq_takeWhile (target : ℚ) :
    ∀ (rest : List (ℚ × ℚ)) (ca : ℚ × ℚ),
      scanCa target ca rest =
        (rest.takeWhile (fun e => decide (e.1 < target))).getLastD ca := by
  intro rest
  induction rest with
  | nil => intro ca; rfl
  | cons na tl ih =>
    intro ca
    by_cases h : na.1 < target
    · rw [scanCa, if_pos h, ih na, List.takeWhile_cons_of_pos (by simpa using h),
        List.getLastD_cons]
    · rw [scanCa, if_neg h, List.takeWhile_cons_of_neg (by simpa using h)]
      rfl

/-- C3 counterexample: for the history (0,10), (1,11), (2,13.5) and window
longTime = 1, the code rate spans back to the entry at time 0 (the scan
keeps the entry BEFORE the earliest one reaching the target time) and
returns 1.75, while the rate between the latest entry and the earliest
entry with time at least (latest - window), as the claim words it, is
2.5. -/
theorem longTermRate_claim_counterexample :
    (findLongTermChngRate 1 [(0, 10), (1, 11)] 2 (27 / 2)).1 = 7 / 4 ∧
    claimLongTermRate 1 [(0, 10), (1, 11), (2, 27 / 2)] (5 / 2) = 5 / 2 ∧
    ((7 / 4 : ℚ) ≠ 5 / 2) := by
  refine ⟨?_, ?_, by norm_num⟩
  · norm_num [findLongTermChngRate, findIterChngRate, scanCa]
  · norm_num [claimLongTermRate, List.find?]

/-- C3 (amended): if longTime is zero or the history holds only one entry
the long-term rate equals the short-term rate; otherwise the rate is
computed between the latest entry and the entry ca at which the scan
stops, and ca is the last entry of the prefix of strictly-earlier-than-
target entries headed by the FIRST history entry - that is, the entry
immediately preceding the earliest entry whose time reaches
(latest - longTime), or the first entry when already the second entry
reaches the target.  The concrete example holds: samples (0,10), (1,11),
(2,13.5) give short-term rate 2.5 and window-2 long-term rate 1.75. -/
theorem findLongTermChngRate_amended (longTime : ℚ) (ml : List (ℚ × ℚ)) (t m : ℚ) :
    ((longTime = 0 ∨ ml = []) →
      (findLongTermChngRate longTime ml t m).1 = (findLongTermChngRate longTime ml t m).2.1) ∧
    (ml ≠ [] → longTime ≠ 0 →
      (findLongTermChngRate longTime ml t m).1 =
        (m - (((ml.tail ++ [(t, m)]).takeWhile
            (fun e => decide (e.1 < t - longTime))).getLastD ml.headI).2) /
        (t - (((ml.tail ++ [(t, m)]).takeWhile
            (fun e => decide (e.1 < t - longTime))).getLastD ml.headI).1)) ∧
    ((findIterChngRate [] 0 10).2 = [(0, 10)] ∧
     (findIterChngRate [(0, 10)] 1 11).2 = [(0, 10), (1, 11)] ∧
     (findLongTermChngRate 2 [(0, 10), (1, 11)] 2 (27 / 2)).2.1 = 5 / 2 ∧
     (findLongTermChngRate 2 [(0, 10), (1, 11)] 2 (27 / 2)).1 = 7 / 4) := by
  refine ⟨?_, ?_, ?_, ?_, ?_, ?_⟩
  · intro h
    rcases h with h | h
    · simp only [findLongTermChngRate]
      rw [if_pos (Or.inl h)]
    · subst h
      simp [findLongTermChngRate, findIterChngRate]
  · intro hml hlt
    obtain ⟨a, tl, rfl⟩ := List.exists_cons_of_ne_nil hml
    have hmass : (findIterChngRate (a :: tl) t m).2 = a :: (tl ++ [(t, m)]) := by
      simp [findIterChngRate]
    have hlast : (a :: (tl ++ [(t, m)])).getLastD (0, 0) = (t, m) := by
      have : a :: (tl ++ [(t, m)]) = (a :: tl) ++ [(t, m)] := by simp
      rw [this, getLastD_concat]
    have hcond : ¬ (longTime = 0 ∨ (a :: (tl ++ [(t, m)])).length = 1) := by
      rintro (h | h)
      · exact hlt h
      · simp at h
    simp only [findLongTermChngRate, hmass, hlast]
    rw [if_neg hcond]
    simp only [List.headI, List.tail_cons]
    rw [scanCa_eq_takeWhile]
  · simp [findIterChngRate]
  · simp [findIterChngRate]
  · norm_num [findLongTermChngRate, findIterChngRate]
  · norm_num [findLongTermChngRate, findIterChngRate, scanCa]

theorem findLongTermChngRate_amended_witness :
    (findLongTermChngRate 2 [(0, 10), (1, 11)] 2 (27 / 2)).1 =
      (27 / 2 -
        (((([(0, 10), (1, 11)] : List (ℚ × ℚ)).tail ++ [(2, 27 / 2)]).takeWhile
            (fun e : ℚ × ℚ => decide (e.1 < 2 - 2))).getLastD
              ([(0, 10), (1, 11)] : List (ℚ × ℚ)).headI).2) /
      (2 -
        (((([(0, 10), (1, 11)] : List (ℚ × ℚ)).tail ++ [(2, 27 / 2)]).takeWhile
            (fun e : ℚ × ℚ => decide (e.1 < 2 - 2))).getLastD
              ([(0, 10), (1, 11)] : List (ℚ × ℚ)).headI).1) :=
  (findLongTermChngRate_amended 2 [(0, 10), (1, 11)] 2 (27 / 2)).2.1
    (by simp) (by norm_num)

theorem foldl_inv {α : Type} (f : ℚ → α → ℚ) (P : ℚ → Prop)
    (h : ∀ cur a, P cur → P (f cur a)) :
    ∀ (l : List α) (init : ℚ), P init → P (l.foldl f init) := by
  intro l
  induction l with
  | nil => intro init h0; simpa using h0
  | cons a tl ih => intro init h0; rw [List.foldl_cons]; exact ih _ (h _ _ h0)

theorem pickErodeDetachLim1_bounds (s : ℕ → List ℚ) (k : ℕ) (rem : ℚ) :
    min (1 / 200000) rem ≤ pickErodeDetachLim1 s k rem ∧
    pickErodeDetachLim1 s k rem ≤ max rem 0 := by
  have hfold := foldl_inv
    (fun cur raw =>
      let dt := raw * (9 / 10)
      if 1 / 200000 < dt ∧ dt < cur then dt else cur)
    (fun cur => min (1 / 200000) rem ≤ cur ∧ cur ≤ rem)
    (fun cur raw hc => by
      show min (1 / 200000) rem ≤
          (if 1 / 200000 < raw * (9 / 10) ∧ raw * (9 / 10) < cur then raw * (9 / 10) else cur) ∧
        (if 1 / 200000 < raw * (9 / 10) ∧ raw * (9 / 10) < cur then raw * (9 / 10) else cur) ≤ rem
      split_ifs with hcond
      · exact ⟨(min_le_left _ _).trans hcond.1.le, hcond.2.le.trans hc.2⟩
      · exact hc)
    (s k) rem ⟨min_le_right _ _, le_rfl⟩
  exact ⟨hfold.1, hfold.2.trans (le_max_left _ _)⟩

theorem pickErodeDetachLim2_bounds (dtmin : ℚ) (s : ℕ → List ℚ) (k : ℕ) (rem : ℚ) :
    min dtmin rem ≤ pickErodeDetachLim2 dtmin s k rem ∧
    pickErodeDetachLim2 dtmin s k rem ≤ max rem dtmin := by
  exact foldl_inv
    (fun cur raw =>
      let dt := raw * (1 / 10)
      if dtmin < dt ∧ dt < cur then dt else dtmin)
    (fun cur => min dtmin rem ≤ cur ∧ cur ≤ max rem dtmin)
    (fun cur raw hc => by
      show min dtmin rem ≤
          (if dtmin < raw * (1 / 10) ∧ raw * (1 / 10) < cur then raw * (1 / 10) else dtmin) ∧
        (if dtmin < raw * (1 / 10) ∧ raw * (1 / 10) < cur then raw * (1 / 10) else dtmin) ≤
          max rem dtmin
      split_ifs with hcond
      · exact ⟨(min_le_left _ _).trans hcond.1.le, hcond.2.le.trans hc.2⟩
      · exact ⟨min_le_left _ _, le_max_right _ _⟩)
    (s k) rem ⟨min_le_right _ _, le_max_left _ _⟩

theorem pickStreamErode_bounds (s : ℕ → List ℚ) (k : ℕ) (rem : ℚ) :
    min (1 / 100000000) rem ≤ pickStreamErode s k rem ∧
    pickStreamErode s k rem ≤ max rem (1 / 100000000) := by
  have hfold : (s k).foldl (fun cur raw => if raw < cur then raw else cur) (rem / (3 / 10)) ≤
      rem / (3 / 10) :=
    foldl_inv (fun cur raw => if raw < cur then raw else cur) (fun cur => cur ≤ rem / (3 / 10))
      (fun cur raw hc => by
        show (if raw < cur then raw else cur) ≤ rem / (3 / 10)
        split_ifs with h
        · exact h.le.trans hc
        · exact hc)
      (s k) _ le_rfl
  have hd : (s k).foldl (fun cur raw => if raw < cur then raw else cur) (rem / (3 / 10)) * (3 / 10) ≤
      rem := by
    calc _ ≤ rem / (3 / 10) * (3 / 10) :=
          mul_le_mul_of_nonneg_right hfold (by norm_num)
    _ = rem := div_mul_cancel₀ rem (by norm_num)
  simp only [pickStreamErode]
  split_ifs with hc
  · exact ⟨min_le_left _ _, le_max_right _ _⟩
  · exact ⟨(min_le_left _ _).trans (not_lt.1 hc), hd.trans (le_max_left _ _)⟩

theorem pickStreamErodeMulti_bounds (s : ℕ → List ℚ) (k : ℕ) (rem : ℚ) :
    min (3 / 10000000) rem ≤ pickStreamErodeMulti s k rem ∧
    pickStreamErodeMulti s k rem ≤ max rem (3 / 2000) := by
  have hfold := foldl_inv
    (fun cur raw =>
      let c1 := if raw < cur then raw else cur
      if raw < 1 / 1000000 then 1 / 200 else c1)
    (fun cur => min (rem / (3 / 10)) (1 / 1000000) ≤ cur ∧ cur ≤ max (rem / (3 / 10)) (1 / 200))
    (fun cur raw hc => by
      show min (rem / (3 / 10)) (1 / 1000000) ≤
          (if raw < 1 / 1000000 then 1 / 200 else if raw < cur then raw else cur) ∧
        (if raw < 1 / 1000000 then 1 / 200 else if raw < cur then raw else cur) ≤
          max (rem / (3 / 10)) (1 / 200)
      split_ifs with h1 h2
      · exact ⟨(min_le_right _ _).trans (by norm_num), le_max_right _ _⟩
      · exact ⟨(min_le_right _ _).trans (not_lt.1 h1), h2.le.trans hc.2⟩
      · exact hc)
    (s k) (rem / (3 / 10)) ⟨min_le_left _ _, le_max_left _ _⟩
  obtain ⟨hlo, hhi⟩ := hfold
  simp only [pickStreamErodeMulti]
  constructor
  · rcases le_total (rem / (3 / 10)) (1 / 1000000) with hcase | hcase
    · rw [min_eq_left hcase] at hlo
      refine (min_le_right _ _).trans ?_
      calc rem = rem / (3 / 10) * (3 / 10) := (div_mul_cancel₀ rem (by norm_num)).symm
      _ ≤ _ := mul_le_mul_of_nonneg_right hlo (by norm_num)
    · rw [min_eq_right hcase] at hlo
      refine (min_le_left _ _).trans ?_
      calc (3 / 10000000 : ℚ) = (1 / 1000000) * (3 / 10) := by norm_num
      _ ≤ _ := mul_le_mul_of_nonneg_right hlo (by norm_num)
  · rcases le_total (rem / (3 / 10)) (1 / 200) with hcase | hcase
    · rw [max_eq_right hcase] at hhi
      refine le_trans ?_ (le_max_right rem (3 / 2000))
      calc _ ≤ (1 / 200 : ℚ) * (3 / 10) := mul_le_mul_of_nonneg_right hhi (by norm_num)
      _ = 3 / 2000 := by norm_num
    · rw [max_eq_left hcase] at hhi
      refine le_trans ?_ (le_max_left rem (3 / 2000))
      calc _ ≤ rem / (3 / 10) * (3 / 10) := mul_le_mul_of_nonneg_right hhi (by norm_num)
      _ = rem := div_mul_cancel₀ rem (by norm_num)

theorem pickDetachErode_bounds (s : ℕ → List ℚ) (k : ℕ) (rem : ℚ) :
    min (3 / 100000) rem ≤ pickDetachErode s k rem ∧
    pickDetachErode s k rem ≤ max rem (3 / 100000) := by
  have hfold := foldl_inv
    (fun cur raw =>
      let c1 := if raw < cur then raw else cur
      if raw < 1 / 10000 then 1 / 10000 else c1)
    (fun cur => min (rem / (3 / 10)) (1 / 10000) ≤ cur ∧ cur ≤ max (rem / (3 / 10)) (1 / 10000))
    (fun cur raw hc => by
      show min (rem / (3 / 10)) (1 / 10000) ≤
          (if raw < 1 / 10000 then 1 / 10000 else if raw < cur then raw else cur) ∧
        (if raw < 1 / 10000 then 1 / 10000 else if raw < cur then raw else cur) ≤
          max (rem / (3 / 10)) (1 / 10000)
      split_ifs with h1 h2
      · exact ⟨min_le_right _ _, le_max_right _ _⟩
      · exact ⟨(min_le_right _ _).trans (not_lt.1 h1), h2.le.trans hc.2⟩
      · exact hc)
    (s k) (rem / (3 / 10)) ⟨min_le_left _ _, le_max_left _ _⟩
  obtain ⟨hlo, hhi⟩ := hfold
  simp only [pickDetachErode]
  constructor
  · rcases le_total (rem / (3 / 10)) (1 / 10000) with hcase | hcase
    · rw [min_eq_left hcase] at hlo
      refine (min_le_right _ _).trans ?_
      calc rem = rem / (3 / 10) * (3 / 10) := (div_mul_cancel₀ rem (by norm_num)).symm
      _ ≤ _ := mul_le_mul_of_nonneg_right hlo (by norm_num)
    · rw [min_eq_right hcase] at hlo
      refine (min_le_left _ _).trans ?_
      calc (3 / 100000 : ℚ) = (1 / 10000) * (3 / 10) := by norm_num
      _ ≤ _ := mul_le_mul_of_nonneg_right hlo (by norm_num)
  · rcases le_total (rem / (3 / 10)) (1 / 10000) with hcase | hcase
    · rw [max_eq_right hcase] at hhi
      refine le_trans ?_ (le_max_right rem (3 / 100000))
      calc _ ≤ (1 / 10000 : ℚ) * (3 / 10) := mul_le_mul_of_nonneg_right hhi (by norm_num)
      _ = 3 / 100000 := by norm_num
    · rw [max_eq_left hcase] at hhi
      refine le_trans ?_ (le_max_left rem (3 / 100000))
      calc _ ≤ rem / (3 / 10) * (3 / 10) := mul_le_mul_of_nonneg_right hhi (by norm_num)
      _ = rem := div_mul_cancel₀ rem (by norm_num)

theorem integratorLoop_bounds {σ : Type} (pick : ℕ → ℚ → ℚ) (tol δ cap : ℚ)
    (substep : σ → ℚ → σ) (hδ : 0 < δ) (htol : 0 ≤ tol) (hcap : 0 ≤ cap)
    (hpick : ∀ k rem, 0 < rem → min δ rem ≤ pick k rem ∧ pick k rem ≤ max rem cap) :
    ∀ (fuel k : ℕ) (rem acc : ℚ) (st : σ), 0 < rem → rem ≤ tol + fuel * δ →
      ∃ total st', integratorLoop pick tol substep (fuel + 1) k rem acc st = some (total, st') ∧
        acc + rem - tol ≤ total ∧ total ≤ acc + rem + cap := by
  intro fuel
  induction fuel with
  | zero =>
    intro k rem acc st hrem hbound
    obtain ⟨hlo, hhi⟩ := hpick k rem hrem
    have hpos : 0 < pick k rem := lt_of_lt_of_le (lt_min hδ hrem) hlo
    have hb0 : rem ≤ tol := by simpa using hbound
    have hexit : ¬ rem - pick k rem > tol := by
      push_neg
      linarith
    refine ⟨acc + pick k rem, substep st (pick k rem), ?_, ?_, ?_⟩
    · simp only [integratorLoop]
      rw [if_neg hexit]
    · have h1 : rem - pick k rem ≤ tol := not_lt.1 hexit
      linarith
    · have h2 : max rem cap ≤ rem + cap := max_le (by linarith) (by linarith)
      linarith [hhi.trans h2]
  | succ n ih =>
    intro k rem acc st hrem hbound
    obtain ⟨hlo, hhi⟩ := hpick k rem hrem
    have hpos : 0 < pick k rem := lt_of_lt_of_le (lt_min hδ hrem) hlo
    by_cases hc : rem - pick k rem > tol
    · have hrem' : 0 < rem - pick k rem := lt_of_le_of_lt htol hc
      have hpickδ : δ ≤ pick k rem := by
        rcases le_total δ rem with hh | hh
        · calc δ = min δ rem := (min_eq_left hh).symm
          _ ≤ _ := hlo
        · exfalso
          have h3 : rem ≤ pick k rem := by
            calc rem = min δ rem := (min_eq_right hh).symm
            _ ≤ _ := hlo
          linarith
      have hbound' : rem - pick k rem ≤ tol + n * δ := by
        have h4 : rem ≤ tol + (n + 1 : ℕ) * δ := hbound
        push_cast at h4 ⊢
        linarith
      obtain ⟨total, st', hloop, h1, h2⟩ :=
        ih (k + 1) (rem - pick k rem) (acc + pick k rem) (substep st (pick k rem)) hrem' hbound'
      refine ⟨total, st', ?_, by linarith, by linarith⟩
      simp only [integratorLoop]
      rw [if_pos hc]
      exact hloop
    · refine ⟨acc + pick k rem, substep st (pick k rem), ?_, ?_, ?_⟩
      · simp only [integratorLoop]
        rw [if_neg hc]
      · have h1 : rem - pick k rem ≤ tol := not_lt.1 hc
        linarith
      · have h2 : max rem cap ≤ rem + cap := max_le (by linarith) (by linarith)
        linarith [hhi.trans h2]

theorem integratorLoop_exists {σ : Type} (pick : ℕ → ℚ → ℚ) (tol δ cap : ℚ)
    (substep : σ → ℚ → σ) (hδ : 0 < δ) (htol : 0 ≤ tol) (hcap : 0 ≤ cap)
    (hpick : ∀ k rem, 0 < rem → min δ rem ≤ pick k rem ∧ pick k rem ≤ max rem cap)
    (dtg : ℚ) (hdtg : 0 < dtg) (st : σ) :
    ∃ fuel total st', integratorLoop pick tol substep fuel 0 dtg 0 st = some (total, st') ∧
      dtg - tol ≤ total ∧ total ≤ dtg + cap := by
  obtain ⟨n, hn⟩ := exists_nat_ge (dtg / δ)
  have hb : dtg ≤ tol + n * δ := by
    rw [div_le_iff₀ hδ] at hn
    linarith
  obtain ⟨total, st', h1, h2, h3⟩ :=
    integratorLoop_bounds pick tol δ cap substep hδ htol hcap hpick n 0 dtg 0 st hdtg hb
  exact ⟨n + 1, total, st', h1, by linarith, by linarith⟩

theorem diffusePick_bounds (kd : ℚ) (edges : List (ℚ × ℚ)) (rt : ℚ)
    (hedges : ∀ e ∈ edges, 0 < e.1) (hrt : 0 < rt) :
    0 < diffusePick kd edges rt ∧ diffusePick kd edges rt ≤ rt := by
  suffices h : ∀ (l : List (ℚ × ℚ)), (∀ e ∈ l, 0 < e.1) → ∀ cur : ℚ, 0 < cur →
      0 < l.foldl
        (fun cur e =>
          if kd * e.2 > 1 / 1000000 then
            let delt := (1 / 10) * (e.1 / (kd * e.2))
            if delt < cur then delt else cur
          else cur) cur ∧
      l.foldl
        (fun cur e =>
          if kd * e.2 > 1 / 1000000 then
            let delt := (1 / 10) * (e.1 / (kd * e.2))
            if delt < cur then delt else cur
          else cur) cur ≤ cur by
    exact h edges hedges rt hrt
  intro l
  induction l with
  | nil => intro _ cur hcur; exact ⟨hcur, le_rfl⟩
  | cons e tl ih =>
    intro hl cur hcur
    rw [List.foldl_cons]
    have he : 0 < e.1 := hl e (List.mem_cons_self _ _)
    have hnext : 0 < (if kd * e.2 > 1 / 1000000 then
        if (1 / 10) * (e.1 / (kd * e.2)) < cur then (1 / 10) * (e.1 / (kd * e.2)) else cur
      else cur) ∧
        (if kd * e.2 > 1 / 1000000 then
          if (1 / 10) * (e.1 / (kd * e.2)) < cur then (1 / 10) * (e.1 / (kd * e.2)) else cur
        else cur) ≤ cur := by
      split_ifs with h1 h2
      · have hdenom : (0 : ℚ) < kd * e.2 := lt_trans (by norm_num) h1
        exact ⟨by positivity, h2.le⟩
      · exact ⟨hcur, le_rfl⟩
      · exact ⟨hcur, le_rfl⟩
    obtain ⟨h3, h4⟩ := ih (fun e' he' => hl e' (List.mem_cons_of_mem _ he')) _ hnext.1
    exact ⟨h3, h4.trans hnext.2⟩

theorem diffuseLoop_exact {σ : Type} (substep : σ → ℚ → σ) :
    ∀ (fuel : ℕ) (rt dtmax acc : ℚ) (st : σ), 0 < dtmax → dtmax ≤ rt → rt ≤ fuel * dtmax →
      ∃ st', diffuseLoop substep fuel rt dtmax acc st = some (acc + rt, st') := by
  intro fuel
  induction fuel with
  | zero =>
    intro rt dtmax acc st h1 h2 h3
    exfalso
    push_cast at h3
    linarith
  | succ n ih =>
    intro rt dtmax acc st h1 h2 h3
    by_cases hc : rt - dtmax > 0
    · have hd' : 0 < (if dtmax > rt - dtmax then rt - dtmax else dtmax) := by
        split_ifs with h
        · exact hc
        · exact h1
      have hle' : (if dtmax > rt - dtmax then rt - dtmax else dtmax) ≤ rt - dtmax := by
        split_ifs with h
        · exact le_rfl
        · exact not_lt.1 h
      have hb' : rt - dtmax ≤ n * (if dtmax > rt - dtmax then rt - dtmax else dtmax) := by
        split_ifs with h
        · have hn1 : 1 ≤ n := by
            by_contra hn
            have hn0 : n = 0 := by omega
            subst hn0
            push_cast at h3
            linarith
          calc rt - dtmax = 1 * (rt - dtmax) := (one_mul _).symm
          _ ≤ n * (rt - dtmax) := by
              apply mul_le_mul_of_nonneg_right _ hc.le
              exact_mod_cast hn1
        · push_cast at h3
          linarith
      obtain ⟨st', hst⟩ := ih (rt - dtmax) _ (acc + dtmax) (substep st dtmax) hd' hle' hb'
      refine ⟨st', ?_⟩
      simp only [diffuseLoop]
      rw [if_pos hc, show acc + rt = acc + dtmax + (rt - dtmax) by ring]
      exact hst
    · have h0 : dtmax = rt := by
        have h5 : (0 : ℚ) ≤ rt - dtmax := by linarith
        have h6 : rt - dtmax ≤ 0 := not_lt.1 hc
        linarith
      refine ⟨substep st dtmax, ?_⟩
      simp only [diffuseLoop]
      rw [if_neg hc, h0]

theorem diffuse_exists {σ : Type} (kd : ℚ) (edges : List (ℚ × ℚ)) (substep : σ → ℚ → σ)
    (rt : ℚ) (hrt : 0 < rt) (hedges : ∀ e ∈ edges, 0 < e.1) (st : σ) :
    ∃ fuel st', Diffuse kd edges substep fuel rt st = some (rt, st') := by
  obtain ⟨hp1, hp2⟩ := diffusePick_bounds kd edges rt hedges hrt
  obtain ⟨n, hn⟩ := exists_nat_ge (rt / diffusePick kd edges rt)
  have hb : rt ≤ n * diffusePick kd edges rt := by
    rw [div_le_iff₀ hp1] at hn
    linarith
  obtain ⟨st', h⟩ := diffuseLoop_exact substep n rt _ 0 st hp1 hp2 hb
  refine ⟨n, st', ?_⟩
  rw [Diffuse]
  simpa using h

/-- C2 (amended): every integrator sub-stepping loop terminates, for every
positive global increment and every per-pass candidate stream, and the
sum of the applied sub-step durations lies in a variant-specific band
around the requested increment dtg: the no-uplift detachment-limited
variant ends within its exit tolerance 1e-7 below dtg and never exceeds
dtg; the uplift variant consumes at least dtg and can overshoot by up to
its minimum-step floor dtg * 1e-4; StreamErode ends within 1e-6 below
and at most 1e-8 above; StreamErodeMulti within 1e-6 below and at most
0.0015 above; DetachErode (when runoff is positive) within 1e-6 below
and at most 3e-5 above; Diffuse consumes exactly dtg. -/
theorem integrators_substep_sum {σ : Type} (substep : σ → ℚ → σ) (st : σ) (dtg : ℚ)
    (s : ℕ → List ℚ) (kd rainrate infilt : ℚ) (edges : List (ℚ × ℚ))
    (hdtg : 0 < dtg) (hrun : 0 < rainrate - infilt) (hedges : ∀ e ∈ edges, 0 < e.1) :
    (∃ fuel total st', ErodeDetachLim1 s substep fuel dtg st = some (total, st') ∧
      dtg - 1 / 10000000 ≤ total ∧ total ≤ dtg) ∧
    (∃ fuel total st', ErodeDetachLim2 s substep fuel dtg st = some (total, st') ∧
      dtg ≤ total ∧ total ≤ dtg + dtg * (1 / 10000)) ∧
    (∃ fuel total st', StreamErode s substep fuel dtg st = some (total, st') ∧
      dtg - 1 / 1000000 ≤ total ∧ total ≤ dtg + 1 / 100000000) ∧
    (∃ fuel total st', StreamErodeMulti s substep fuel dtg st = some (total, st') ∧
      dtg - 1 / 1000000 ≤ total ∧ total ≤ dtg + 3 / 2000) ∧
    (∃ fuel total st', DetachErode rainrate infilt s substep fuel dtg st = some (total, st') ∧
      dtg - 1 / 1000000 ≤ total ∧ total ≤ dtg + 3 / 100000) ∧
    (∃ fuel st', Diffuse kd edges substep fuel dtg st = some (dtg, st')) := by
  refine ⟨?_, ?_, ?_, ?_, ?_, ?_⟩
  · obtain ⟨fuel, total, st', h1, h2, h3⟩ := integratorLoop_exists (pickErodeDetachLim1 s)
      (1 / 10000000) (1 / 200000) 0 substep (by norm_num) (by norm_num) le_rfl
      (fun k rem _ => pickErodeDetachLim1_bounds s k rem) dtg hdtg st
    exact ⟨fuel, total, st', h1, h2, by linarith⟩
  · obtain ⟨fuel, total, st', h1, h2, h3⟩ := integratorLoop_exists
      (pickErodeDetachLim2 (dtg * (1 / 10000)) s) 0 (dtg * (1 / 10000)) (dtg * (1 / 10000))
      substep (by positivity) le_rfl (by positivity)
      (fun k rem _ => pickErodeDetachLim2_bounds (dtg * (1 / 10000)) s k rem) dtg hdtg st
    exact ⟨fuel, total, st', h1, by linarith, h3⟩
  · obtain ⟨fuel, total, st', h1, h2, h3⟩ := integratorLoop_exists (pickStreamErode s)
      (1 / 1000000) (1 / 100000000) (1 / 100000000) substep (by norm_num) (by norm_num)
      (by norm_num) (fun k rem _ => pickStreamErode_bounds s k rem) dtg hdtg st
    exact ⟨fuel, total, st', h1, h2, h3⟩
  · obtain ⟨fuel, total, st', h1, h2, h3⟩ := integratorLoop_exists (pickStreamErodeMulti s)
      (1 / 1000000) (3 / 10000000) (3 / 2000) substep (by norm_num) (by norm_num)
      (by norm_num) (fun k rem _ => pickStreamErodeMulti_bounds s k rem) dtg hdtg st
    exact ⟨fuel, total, st', h1, h2, h3⟩
  · obtain ⟨fuel, total, st', h1, h2, h3⟩ := integratorLoop_exists (pickDetachErode s)
      (1 / 1000000) (3 / 100000) (3 / 100000) substep (by norm_num) (by norm_num)
      (by norm_num) (fun k rem _ => pickDetachErode_bounds s k rem) dtg hdtg st
    refine ⟨fuel, total, st', ?_, h2, h3⟩
    rw [DetachErode, if_pos hrun]
    exact h1
  · exact diffuse_exists kd edges substep dtg hdtg hedges st

theorem integrators_substep_sum_witness :
    (∃ fuel total st', ErodeDetachLim1 (fun _ => []) (fun (u : Unit) _ => u) fuel 1 () =
        some (total, st') ∧ (1 : ℚ) - 1 / 10000000 ≤ total ∧ total ≤ 1) ∧
    (∃ fuel total st', ErodeDetachLim2 (fun _ => []) (fun (u : Unit) _ => u) fuel 1 () =
        some (total, st') ∧ (1 : ℚ) ≤ total ∧ total ≤ 1 + 1 * (1 / 10000)) ∧
    (∃ fuel total st', StreamErode (fun _ => []) (fun (u : Unit) _ => u) fuel 1 () =
        some (total, st') ∧ (1 : ℚ) - 1 / 1000000 ≤ total ∧ total ≤ 1 + 1 / 100000000) ∧
    (∃ fuel total st', StreamErodeMulti (fun _ => []) (fun (u : Unit) _ => u) fuel 1 () =
        some (total, st') ∧ (1 : ℚ) - 1 / 1000000 ≤ total ∧ total ≤ 1 + 3 / 2000) ∧
    (∃ fuel total st', DetachErode 2 1 (fun _ => []) (fun (u : Unit) _ => u) fuel 1 () =
        some (total, st') ∧ (1 : ℚ) - 1 / 1000000 ≤ total ∧ total ≤ 1 + 3 / 100000) ∧
    (∃ fuel st', Diffuse 1 [] (fun (u : Unit) _ => u) fuel 1 () = some (1, st')) :=
  integrators_substep_sum (fun (u : Unit) _ => u) () 1 (fun _ => []) 1 2 1 []
    (by norm_num) (by norm_num) (by simp)

/-- C2 counterexample: in the uplift variant of ErodeDetachLim, a run with
dtg = 1 and two positive sub-steps (0.99999 then the floor dtmin =
0.0001) terminates with total applied time 1.00009, which misses the
requested increment by 9e-5, far beyond the claimed loop exit tolerance
of about 1e-6 to 1e-7. -/
theorem erodeDetachLimUplift_tolerance_counterexample :
    ErodeDetachLim2 sCE (fun (u : Unit) _ => u) 2 1 () = some (100009 / 100000, ()) ∧
    ¬ |(100009 / 100000 : ℚ) - 1| ≤ 1 / 1000000 := by
  constructor
  · rw [ErodeDetachLim2, show (2 : ℕ) = 0 + 1 + 1 from rfl]
    norm_num [integratorLoop, pickErodeDetachLim2, sCE]
  · rw [abs_of_nonneg (by norm_num)]
    norm_num
